import Mathlib

/-!
Shallow embedding of `toeplitz_matrix<T, A>` from
`include/boost/numeric/ublas/toeplitz.hpp`.

The container stores `size1_` (rows), `size2_` (cols) and a flat backing
array `data_` holding one value per descending diagonal.  `size_type` is an
unsigned machine integer of some width `w`; we model it by `Nat`, inserting
an explicit `% 2 ^ w` exactly where the source's unsigned arithmetic can
wrap (the `size1 + size2 - 1` backing-store length computation and the
`size1 + size2 == size1_ + size2_` resize check).  The element type `T`
stays a type parameter, the backing array is a `List T`, and the checked
access of `BOOST_UBLAS_CHECK` (which throws on violation) is modelled by
`Option`.
-/

namespace UblasToeplitz

/-- The state of a `toeplitz_matrix<T>`: fields `size1_`, `size2_`, `data_`. -/
structure ToeplitzMatrix (T : Type) where
  size1 : Nat
  size2 : Nat
  data : List T
  deriving Repr, DecidableEq

/-- Unsigned evaluation of `n - 1` at word width `w`, applied to a sum that
may itself have wrapped: `(n - 1) mod 2^w`. -/
def wordSub1 (w n : Nat) : Nat := (n + (2 ^ w - 1)) % 2 ^ w

/-- The backing-store length `size1 + size2 - 1` as the source computes it in
unsigned `size_type` arithmetic at word width `w`. -/
def dataLen (w size1 size2 : Nat) : Nat := wordSub1 w (size1 + size2)

/-- Default constructor `toeplitz_matrix ()`: `size1_(0), size2_(0), data_(0)`. -/
def mkEmpty (T : Type) : ToeplitzMatrix T := ⟨0, 0, []⟩

/-- Dimensions-only constructor `toeplitz_matrix (size1, size2)`:
`data_(size1 + size2 - 1)` in unsigned arithmetic; the array elements are
default-initialized, modelled by the value `z`. -/
def mkDims (w : Nat) (size1 size2 : Nat) (z : T) : ToeplitzMatrix T :=
  ⟨size1, size2, List.replicate (dataLen w size1 size2) z⟩

/-- Constructor `toeplitz_matrix (size1, size2, data)`: stores the given
array as-is; the source performs no check that `data` has the length
`size1 + size2 - 1`. -/
def mkFromData (size1 size2 : Nat) (d : List T) : ToeplitzMatrix T :=
  ⟨size1, size2, d⟩

/-- Row/column-seeded constructor `toeplitz_matrix (row, column)`:
`size1_ = column.size()`, `size2_ = row.size()`,
`data_(row.size() + column.size() - 1)`; it checks (via `BOOST_UBLAS_CHECK`,
modelled by `Option`) that `row` and `column` are non-empty and that
`row[0] == column[0]`, then copies `column` reversed into the front of the
store and `row` without its first element behind it. -/
def fromRowCol [DecidableEq T] (row col : List T) : Option (ToeplitzMatrix T) :=
  if 0 < row.length ∧ 0 < col.length ∧ row.head? = col.head? then
    some ⟨col.length, row.length, col.reverse ++ row.drop 1⟩
  else none

/-- The index computation of `operator () (i, j)` in exact natural
arithmetic: branch `i >= j` computes `size1_ - 1 - i + j`, branch `i < j`
computes `size1_ + j - i - 1` (left-to-right, as in the source; no
subtraction underflows for checked in-range indices).  The source evaluates
these expressions in w-bit unsigned `size_type`; `offsetIdxW` below is that
word-accurate form, and `offsetIdxW_eq_exact` proves the two agree exactly
when `size1 + size2 ≤ 2 ^ w`, i.e. whenever the matrix's diagonal store is
representable — the regime in which `readElem` and `insert_element` use
this exact form. -/
def offsetIdx (size1 i j : Nat) : Nat :=
  if i ≥ j then size1 - 1 - i + j else size1 + j - i - 1

/-- Unsigned w-bit addition `a + b` of two `size_type` values. -/
def wadd (w a b : Nat) : Nat := (a + b) % 2 ^ w

/-- Unsigned w-bit subtraction `a - b`: adding the two's complement of `b`
modulo the word, so underflow wraps exactly as unsigned `size_type` does. -/
def wsub (w a b : Nat) : Nat := (a + (2 ^ w - b % 2 ^ w)) % 2 ^ w

/-- The index computation of `operator () (i, j)` evaluated in w-bit
unsigned `size_type` arithmetic, operator by operator and left-to-right as
the source writes it: `size1_ - 1 - i + j` when `i >= j`, and
`size1_ + j - i - 1` when `i < j`. -/
def offsetIdxW (w size1 i j : Nat) : Nat :=
  if i ≥ j then wadd w (wsub w (wsub w size1 1) i) j
  else wsub w (wsub w (wadd w size1 j) i) 1

/-- Checked element read, `const_reference operator () (i, j) const`:
`BOOST_UBLAS_CHECK (i < size1_)`, `BOOST_UBLAS_CHECK (j < size2_)`, then
`data () [offset]`. An out-of-range index or a backing store shorter than
the offset yields `none`. -/
def readElem (m : ToeplitzMatrix T) (i j : Nat) : Option T :=
  if i < m.size1 then
    if j < m.size2 then m.data[offsetIdx m.size1 i j]?
    else none
  else none

/-- `insert_element (i, j, t)`: `operator () (i, j) = t`, writing the slot
`offsetIdx size1 i j` of the backing store (checked access). -/
def insert_element (m : ToeplitzMatrix T) (i j : Nat) (t : T) :
    Option (ToeplitzMatrix T) :=
  if i < m.size1 then
    if j < m.size2 then
      some ⟨m.size1, m.size2, m.data.set (offsetIdx m.size1 i j) t⟩
    else none
  else none

/-- `erase_element (i, j)`: `operator () (i, j) = value_type()`; the
default value `value_type()` is the parameter `z`. -/
def erase_element (m : ToeplitzMatrix T) (i j : Nat) (z : T) :
    Option (ToeplitzMatrix T) :=
  insert_element m i j z

/-- `clear ()`: `std::fill (data ().begin(), data ().end(), value_type())`. -/
def clearAll (m : ToeplitzMatrix T) (z : T) : ToeplitzMatrix T :=
  ⟨m.size1, m.size2, m.data.map fun _ => z⟩

/-- Copy assignment `operator = (m)`: replaces `size1_`, `size2_` and the
backing store by (deep copies of) the right-hand side's. -/
def assign (_a b : ToeplitzMatrix T) : ToeplitzMatrix T :=
  ⟨b.size1, b.size2, b.data⟩

/-- `swap (m)` / `friend swap (m1, m2)`: exchanges `size1_`, `size2_` and
the backing stores of the two matrices (the source's `this != &m` guard
only skips the exchange when both sides are the same object, in which case
exchanging is itself the identity). -/
def swapM (a b : ToeplitzMatrix T) : ToeplitzMatrix T × ToeplitzMatrix T :=
  (⟨b.size1, b.size2, b.data⟩, ⟨a.size1, a.size2, a.data⟩)

/-- `resize (size1, size2, preserve)`: with `preserve`, checks
`size1 + size2 == size1_ + size2_` in unsigned `size_type` arithmetic (sums
reduced mod `2^w`) and on success only updates the dimensions, keeping the
store; without `preserve`, updates the dimensions and reallocates the store
to `size1 + size2 - 1` (unsigned), default-initialized to `z`. -/
def resizeM (w : Nat) (m : ToeplitzMatrix T) (size1 size2 : Nat)
    (preserve : Bool) (z : T) : Option (ToeplitzMatrix T) :=
  if preserve then
    if (size1 + size2) % 2 ^ w = (m.size1 + m.size2) % 2 ^ w then
      some ⟨size1, size2, m.data⟩
    else none
  else
    some ⟨size1, size2, List.replicate (dataLen w size1 size2) z⟩

/-- Axis-1 cursor `const_iterator1`: a reference to the matrix plus the two
index fields `it1_`, `it2_`; axis 1 is the advancing axis. -/
structure const_iterator1 (T : Type) where
  mat : ToeplitzMatrix T
  it1 : Nat
  it2 : Nat
  deriving Repr, DecidableEq

/-- Axis-2 cursor `const_iterator2`: a reference to the matrix plus the two
index fields `it1_`, `it2_`; axis 2 is the advancing axis. -/
structure const_iterator2 (T : Type) where
  mat : ToeplitzMatrix T
  it1 : Nat
  it2 : Nat
  deriving Repr, DecidableEq

/-- `begin1 ()`: `const_iterator1 (*this, 0, 0)`. -/
def begin1 (m : ToeplitzMatrix T) : const_iterator1 T := ⟨m, 0, 0⟩

/-- `end1 ()`: `const_iterator1 (*this, size1_, 0)`. -/
def end1 (m : ToeplitzMatrix T) : const_iterator1 T := ⟨m, m.size1, 0⟩

/-- `begin2 ()`: `const_iterator2 (*this, 0, 0)`. -/
def begin2 (m : ToeplitzMatrix T) : const_iterator2 T := ⟨m, 0, 0⟩

/-- `end2 ()`: `const_iterator2 (*this, 0, size2_)`. -/
def end2 (m : ToeplitzMatrix T) : const_iterator2 T := ⟨m, 0, m.size2⟩

/-- `const_iterator1::operator += (n)`: adjusts the advancing index `it1_`. -/
def const_iterator1.advance (it : const_iterator1 T) (n : Nat) : const_iterator1 T :=
  ⟨it.mat, it.it1 + n, it.it2⟩

/-- `const_iterator1::operator * ()`: `(*this) () (it1_, it2_)`. -/
def const_iterator1.deref (it : const_iterator1 T) : Option T :=
  readElem it.mat it.it1 it.it2

/-- `const_iterator1::begin ()`: the orthogonal column sub-iterator
`const_iterator2 ((*this) (), it1_, 0)`. -/
def const_iterator1.subBegin (it : const_iterator1 T) : const_iterator2 T :=
  ⟨it.mat, it.it1, 0⟩

/-- `const_iterator1::end ()`: `const_iterator2 ((*this) (), it1_, size2 ())`. -/
def const_iterator1.subEnd (it : const_iterator1 T) : const_iterator2 T :=
  ⟨it.mat, it.it1, it.mat.size2⟩

/-- `const_iterator2::operator += (n)`: adjusts the advancing index `it2_`. -/
def const_iterator2.advance (it : const_iterator2 T) (n : Nat) : const_iterator2 T :=
  ⟨it.mat, it.it1, it.it2 + n⟩

/-- `const_iterator2::operator * ()`: `(*this) () (it1_, it2_)`. -/
def const_iterator2.deref (it : const_iterator2 T) : Option T :=
  readElem it.mat it.it1 it.it2

/-- `const_iterator2::begin ()`: the orthogonal row sub-iterator
`const_iterator1 ((*this) (), 0, it2_)`. -/
def const_iterator2.subBegin (it : const_iterator2 T) : const_iterator1 T :=
  ⟨it.mat, 0, it.it2⟩

/-- `const_iterator2::end ()`: `const_iterator1 ((*this) (), size1 (), it2_)`. -/
def const_iterator2.subEnd (it : const_iterator2 T) : const_iterator1 T :=
  ⟨it.mat, it.mat.size1, it.it2⟩

/-! ### Helper lemmas -/

/-- The unsigned length computation `size1 + size2 - 1` agrees with exact
natural subtraction whenever the sum is positive and fits the word. -/
theorem dataLen_eq_of_le (w s1 s2 : Nat) (h1 : 0 < s1 + s2) (h2 : s1 + s2 ≤ 2 ^ w) :
    dataLen w s1 s2 = s1 + s2 - 1 := by
  unfold dataLen wordSub1
  have hpow : 0 < 2 ^ w := Nat.two_pow_pos w
  have hrw : s1 + s2 + (2 ^ w - 1) = (s1 + s2 - 1) + 2 ^ w := by omega
  rw [hrw, Nat.add_mod_right, Nat.mod_eq_of_lt (by omega)]

/-- The unsigned value of `n - 1` at width `w` is zero exactly when `n` is
congruent to `1` modulo the word size. -/
theorem wordSub1_eq_zero_iff (w n : Nat) (hw : 0 < w) :
    wordSub1 w n = 0 ↔ n % 2 ^ w = 1 := by
  unfold wordSub1
  have hpow : 0 < 2 ^ w := Nat.two_pow_pos w
  have h2 : 1 < 2 ^ w := Nat.one_lt_two_pow_iff.mpr (by omega)
  rcases Nat.eq_zero_or_pos n with h0 | h1
  · subst h0
    simp only [Nat.zero_add, Nat.zero_mod]
    rw [Nat.mod_eq_of_lt (by omega)]
    omega
  · have hrw : n + (2 ^ w - 1) = (n - 1) + 2 ^ w := by omega
    rw [hrw, Nat.add_mod_right]
    constructor
    · intro h
      obtain ⟨q, hq⟩ := Nat.dvd_of_mod_eq_zero h
      have hn : n = 2 ^ w * q + 1 := by omega
      rw [hn, Nat.mul_add_mod]
      exact Nat.mod_eq_of_lt h2
    · intro h
      have hdm := Nat.div_add_mod n (2 ^ w)
      have hn1 : n - 1 = 2 ^ w * (n / 2 ^ w) := by omega
      rw [hn1]
      exact Nat.mul_mod_right _ _

/-- `resize` with `preserve` unfolded to its sum check. -/
theorem resizeM_true_eq (w : Nat) (m : ToeplitzMatrix T) (s1 s2 : Nat) (z : T) :
    resizeM w m s1 s2 true z =
      if (s1 + s2) % 2 ^ w = (m.size1 + m.size2) % 2 ^ w then
        some ⟨s1, s2, m.data⟩
      else none := rfl

/-- Unsigned subtraction of `b` from a word `a` that represents `c` modulo
the word size, when the exact difference `c - b` does not underflow. -/
theorem wsub_rep (w a c b : Nat) (ha : a = c % 2 ^ w) (hb : b < 2 ^ w)
    (hbc : b ≤ c) : wsub w a b = (c - b) % 2 ^ w := by
  subst ha
  unfold wsub
  rw [Nat.mod_eq_of_lt hb, Nat.mod_add_mod]
  have h : c + (2 ^ w - b) = (c - b) + 2 ^ w := by omega
  rw [h, Nat.add_mod_right]

/-- For checked in-range indices of a representable-dimension matrix, both
branches of the word-accurate index computation reduce to
`(size1 - 1 - i + j) mod 2 ^ w`. -/
theorem offsetIdxW_eq_mod (w size1 i j : Nat) (hw : 0 < w)
    (h1 : 0 < size1) (hs1 : size1 < 2 ^ w) (hi : i < size1) (_hj : j < 2 ^ w) :
    offsetIdxW w size1 i j = (size1 - 1 - i + j) % 2 ^ w := by
  have hP : 1 < 2 ^ w := Nat.one_lt_two_pow_iff.mpr (by omega)
  unfold offsetIdxW
  split
  case isTrue hij =>
    have e1 : wsub w size1 1 = (size1 - 1) % 2 ^ w :=
      wsub_rep w size1 size1 1 (Nat.mod_eq_of_lt hs1).symm hP (by omega)
    have e2 : wsub w ((size1 - 1) % 2 ^ w) i = (size1 - 1 - i) % 2 ^ w :=
      wsub_rep w _ (size1 - 1) i rfl (by omega) (by omega)
    rw [e1, e2]
    unfold wadd
    rw [Nat.mod_add_mod]
  case isFalse hij =>
    have f1 : wadd w size1 j = (size1 + j) % 2 ^ w := rfl
    have f2 : wsub w ((size1 + j) % 2 ^ w) i = (size1 + j - i) % 2 ^ w :=
      wsub_rep w _ (size1 + j) i rfl (by omega) (by omega)
    have f3 : wsub w ((size1 + j - i) % 2 ^ w) 1 = (size1 + j - i - 1) % 2 ^ w :=
      wsub_rep w _ (size1 + j - i) 1 rfl hP (by omega)
    rw [f1, f2, f3]
    have harith : size1 + j - i - 1 = size1 - 1 - i + j := by omega
    rw [harith]

/-- When the diagonal count `size1 + size2 - 1` fits the word, the
word-accurate index computation agrees with the exact-arithmetic form and
with the single formula `size1 - 1 - i + j`. -/
theorem offsetIdxW_eq_exact (w size1 size2 i j : Nat) (hw : 0 < w)
    (h1 : 0 < size1) (hfits : size1 + size2 ≤ 2 ^ w)
    (hi : i < size1) (hj : j < size2) :
    offsetIdxW w size1 i j = offsetIdx size1 i j ∧
      offsetIdxW w size1 i j = size1 - 1 - i + j := by
  have hmod := offsetIdxW_eq_mod w size1 i j hw h1 (by omega) hi (by omega)
  have hlt : size1 - 1 - i + j < 2 ^ w := by omega
  rw [Nat.mod_eq_of_lt hlt] at hmod
  refine ⟨?_, hmod⟩
  rw [hmod]
  unfold offsetIdx
  split <;> omega

/-! ### Claim theorems -/

/-- C1 counterexample: the index arithmetic is w-bit unsigned, so on the
reachable dimensions `rows = 2^64 - 1`, `cols = 3` (the state produced by
`resize_preserve_wrap_cex`) the valid pairs `(0, 2)` and `(2^64 - 2, 0)`
lie on different diagonals yet both map to storage slot 0: the computed
offset is `(rows - 1 - i + j) mod 2^64`, not the exact value `2^64` the
claim asserts, and the mapping is not injective on diagonals there. -/
theorem offset_wrap_cex :
    offsetIdxW 64 (2 ^ 64 - 1) 0 2 = 0 ∧
    offsetIdxW 64 (2 ^ 64 - 1) (2 ^ 64 - 2) 0 = 0 ∧
    (2 ^ 64 - 1) - 1 - 0 + 2 ≠ offsetIdxW 64 (2 ^ 64 - 1) 0 2 ∧
    ((0 : Int) - 2 ≠ ((2 ^ 64 - 2 : Nat) : Int) - 0) ∧
    (0 : Nat) < 2 ^ 64 - 1 ∧ (2 : Nat) < 3 ∧
    (2 ^ 64 - 2 : Nat) < 2 ^ 64 - 1 ∧ (0 : Nat) < 3 := by decide

/-- C1 (amended): for `0 < rows`, `0 < cols`, `i < rows`, `j < cols`, both
branches of the element-access index computation yield the same value,
namely `(rows - 1 - i + j) mod 2^w` in the unsigned `size_type` width `w`;
whenever `rows + cols ≤ 2^w` — every matrix whose diagonal store is
representable — this equals exactly `rows - 1 - i + j`, lies in
`[0, rows + cols - 1)`, attains every value of that range, and two valid
pairs share an offset exactly when they lie on the same diagonal (a
bijection between diagonal classes and storage slots); beyond that bound
the modular reduction makes distinct diagonals collide. -/
theorem offset_mapping_word (w size1 size2 i j : Nat)
    (hw : 0 < w) (h1 : 0 < size1) (h2 : 0 < size2)
    (hs1 : size1 < 2 ^ w) (hs2 : size2 < 2 ^ w)
    (hi : i < size1) (hj : j < size2) :
    offsetIdxW w size1 i j = (size1 - 1 - i + j) % 2 ^ w ∧
    (size1 + size2 ≤ 2 ^ w →
      offsetIdxW w size1 i j = offsetIdx size1 i j ∧
      offsetIdxW w size1 i j = size1 - 1 - i + j ∧
      offsetIdxW w size1 i j < size1 + size2 - 1 ∧
      (∀ k, k < size1 + size2 - 1 →
        ∃ i' j', i' < size1 ∧ j' < size2 ∧ offsetIdxW w size1 i' j' = k) ∧
      (∀ i' j', i' < size1 → j' < size2 →
        (offsetIdxW w size1 i' j' = offsetIdxW w size1 i j ↔
          (i' : Int) - (j' : Int) = (i : Int) - (j : Int)))) := by
  refine ⟨offsetIdxW_eq_mod w size1 i j hw h1 hs1 hi (by omega), ?_⟩
  intro hfits
  obtain ⟨hoi, hov⟩ := offsetIdxW_eq_exact w size1 size2 i j hw h1 hfits hi hj
  refine ⟨hoi, hov, by omega, ?_, ?_⟩
  · intro k hk
    by_cases hks : k < size1
    · refine ⟨size1 - 1 - k, 0, by omega, by omega, ?_⟩
      rw [(offsetIdxW_eq_exact w size1 size2 (size1 - 1 - k) 0 hw h1 hfits
        (by omega) (by omega)).2]
      omega
    · refine ⟨0, k + 1 - size1, by omega, by omega, ?_⟩
      rw [(offsetIdxW_eq_exact w size1 size2 0 (k + 1 - size1) hw h1 hfits
        (by omega) (by omega)).2]
      omega
  · intro i' j' hi' hj'
    rw [(offsetIdxW_eq_exact w size1 size2 i' j' hw h1 hfits hi' hj').2, hov]
    omega

/-- Witness for C1 (amended) at `w = 64`, `rows = 2`, `cols = 3`,
`(i, j) = (1, 2)`. -/
theorem offset_mapping_word_witness :
    offsetIdxW 64 2 1 2 = (2 - 1 - 1 + 2) % 2 ^ 64 :=
  (offset_mapping_word 64 2 3 1 2 (by decide) (by decide) (by decide)
    (by decide) (by decide) (by decide) (by decide)).1

/-- C2: on a matrix whose backing store covers all `rows + cols - 1`
diagonal slots, writing `v` at a valid `(i, j)` via `insert_element` (the
mutable `operator ()`) makes every valid read on the same diagonal
`i' - j' = i - j` return `v` and leaves every valid read on any other
diagonal unchanged. -/
theorem set_aliases_diagonal (T : Type) (m : ToeplitzMatrix T)
    (i j i' j' : Nat) (v : T)
    (hlen : m.size1 + m.size2 - 1 ≤ m.data.length)
    (hi : i < m.size1) (hj : j < m.size2) (hi' : i' < m.size1) (hj' : j' < m.size2) :
    ∃ m2, insert_element m i j v = some m2 ∧
      ((i' : Int) - (j' : Int) = (i : Int) - (j : Int) →
        readElem m2 i' j' = some v) ∧
      ((i' : Int) - (j' : Int) ≠ (i : Int) - (j : Int) →
        readElem m2 i' j' = readElem m i' j') := by
  refine ⟨⟨m.size1, m.size2, m.data.set (offsetIdx m.size1 i j) v⟩, ?_, ?_, ?_⟩
  · unfold insert_element
    rw [if_pos hi, if_pos hj]
  · intro hd
    have hoff : offsetIdx m.size1 i' j' = offsetIdx m.size1 i j := by
      unfold offsetIdx; split <;> split <;> omega
    have hlt : offsetIdx m.size1 i j < m.data.length := by
      unfold offsetIdx; split <;> omega
    unfold readElem
    simp only [if_pos hi', if_pos hj']
    rw [hoff]
    exact List.getElem?_set_eq_of_lt v hlt
  · intro hd
    have hoff : offsetIdx m.size1 i' j' ≠ offsetIdx m.size1 i j := by
      unfold offsetIdx; split <;> split <;> omega
    unfold readElem
    simp only [if_pos hi', if_pos hj']
    exact List.getElem?_set_ne (Ne.symm hoff)

/-- Witness for C2: a 3×3 matrix, write at `(0, 1)`, read at `(1, 2)` on the
same diagonal. -/
theorem set_aliases_diagonal_witness :
    ∃ m2, insert_element (mkFromData 3 3 ([0, 0, 0, 0, 0] : List Int)) 0 1 7 =
        some m2 ∧
      (((1 : Nat) : Int) - ((2 : Nat) : Int) = ((0 : Nat) : Int) - ((1 : Nat) : Int) →
        readElem m2 1 2 = some 7) ∧
      (((1 : Nat) : Int) - ((2 : Nat) : Int) ≠ ((0 : Nat) : Int) - ((1 : Nat) : Int) →
        readElem m2 1 2 = readElem (mkFromData 3 3 ([0, 0, 0, 0, 0] : List Int)) 1 2) :=
  set_aliases_diagonal Int (mkFromData 3 3 [0, 0, 0, 0, 0]) 0 1 1 2 7
    (by decide) (by decide) (by decide) (by decide) (by decide)

/-- C3: constructing from a non-empty first row `r` and first column `c`
with `r[0] = c[0]` succeeds, and on the result `get(0, k) = r[k]` for all
`k < cols` and `get(k, 0) = c[k]` for all `k < rows`; in particular, the 3×3
matrix built from row `[1, 2, 3]` and column `[1, 4, 5]` (stored diagonals
`[5, 4, 1, 2, 3]`) has the nine element values the spec lists. -/
theorem fromRowCol_roundtrip (T : Type) [DecidableEq T] (row col : List T)
    (hr : 0 < row.length) (hc : 0 < col.length) (hcorner : row.head? = col.head?) :
    (∃ M, fromRowCol row col = some M ∧
      M.size1 = col.length ∧ M.size2 = row.length ∧
      (∀ k, k < row.length → readElem M 0 k = row[k]?) ∧
      (∀ k, k < col.length → readElem M k 0 = col[k]?)) ∧
    (fromRowCol ([1, 2, 3] : List Int) [1, 4, 5] =
        some (mkFromData 3 3 [5, 4, 1, 2, 3]) ∧
      readElem (mkFromData 3 3 ([5, 4, 1, 2, 3] : List Int)) 0 0 = some 1 ∧
      readElem (mkFromData 3 3 ([5, 4, 1, 2, 3] : List Int)) 1 0 = some 4 ∧
      readElem (mkFromData 3 3 ([5, 4, 1, 2, 3] : List Int)) 2 0 = some 5 ∧
      readElem (mkFromData 3 3 ([5, 4, 1, 2, 3] : List Int)) 0 1 = some 2 ∧
      readElem (mkFromData 3 3 ([5, 4, 1, 2, 3] : List Int)) 0 2 = some 3 ∧
      readElem (mkFromData 3 3 ([5, 4, 1, 2, 3] : List Int)) 1 1 = some 1 ∧
      readElem (mkFromData 3 3 ([5, 4, 1, 2, 3] : List Int)) 2 2 = some 1 ∧
      readElem (mkFromData 3 3 ([5, 4, 1, 2, 3] : List Int)) 1 2 = some 2 ∧
      readElem (mkFromData 3 3 ([5, 4, 1, 2, 3] : List Int)) 2 1 = some 4) := by
  refine ⟨⟨⟨col.length, row.length, col.reverse ++ row.drop 1⟩, ?_, rfl, rfl, ?_, ?_⟩,
    by decide⟩
  · unfold fromRowCol
    rw [if_pos ⟨hr, hc, hcorner⟩]
  · intro k hk
    unfold readElem
    simp only
    rw [if_pos hc, if_pos hk]
    rcases Nat.eq_zero_or_pos k with hk0 | hk1
    · subst hk0
      have hoff : offsetIdx col.length 0 0 = col.length - 1 := by
        unfold offsetIdx; split <;> omega
      rw [hoff]
      rw [List.getElem?_append_left
        (by simp only [List.length_reverse]; omega : col.length - 1 < col.reverse.length)]
      rw [List.getElem?_reverse (by omega)]
      have h0 : col.length - 1 - (col.length - 1) = 0 := by omega
      rw [h0]
      rw [← List.head?_eq_getElem?, ← List.head?_eq_getElem?, hcorner]
    · have hoff : offsetIdx col.length 0 k = col.length + (k - 1) := by
        unfold offsetIdx; split <;> omega
      rw [hoff]
      rw [List.getElem?_append_right
        (by simp only [List.length_reverse]; omega :
          col.reverse.length ≤ col.length + (k - 1))]
      have harg : col.length + (k - 1) - col.reverse.length = k - 1 := by
        simp only [List.length_reverse]; omega
      rw [harg, List.getElem?_drop]
      have hk1' : 1 + (k - 1) = k := by omega
      rw [hk1']
  · intro k hk
    unfold readElem
    simp only
    rw [if_pos hk, if_pos hr]
    have hoff : offsetIdx col.length k 0 = col.length - 1 - k := by
      unfold offsetIdx; split <;> omega
    rw [hoff]
    rw [List.getElem?_append_left
      (by simp only [List.length_reverse]; omega :
        col.length - 1 - k < col.reverse.length)]
    rw [List.getElem?_reverse (by omega)]
    have harg : col.length - 1 - (col.length - 1 - k) = k := by omega
    rw [harg]

/-- Witness for C3 at row `[1, 2, 3]`, column `[1, 4, 5]`. -/
theorem fromRowCol_roundtrip_witness :
    ∃ M, fromRowCol ([1, 2, 3] : List Int) [1, 4, 5] = some M ∧
      M.size1 = 3 ∧ M.size2 = 3 ∧ readElem M 0 1 = some 2 ∧
      readElem M 2 0 = some 5 := by
  obtain ⟨⟨M, hM, h1, h2, hrow, hcol⟩, -⟩ :=
    fromRowCol_roundtrip Int [1, 2, 3] [1, 4, 5] (by decide) (by decide) (by decide)
  refine ⟨M, hM, by simpa using h1, by simpa using h2, ?_, ?_⟩
  · simpa using hrow 1 (by decide)
  · simpa using hcol 2 (by decide)

/-- C4: the row/column-seeded construction produces no matrix when either
seed sequence is empty or when the two first elements differ: the
`BOOST_UBLAS_CHECK` construction-invariant checks reject the input before
any matrix is returned. -/
theorem fromRowCol_rejects_invalid (T : Type) [DecidableEq T] (row col : List T)
    (h : row = [] ∨ col = [] ∨ row.head? ≠ col.head?) :
    fromRowCol row col = none := by
  unfold fromRowCol
  rw [if_neg]
  rintro ⟨h1, h2, h3⟩
  rcases h with h | h | h
  · rw [h] at h1; simp at h1
  · rw [h] at h2; simp at h2
  · exact h h3

/-- Witness for C4: row `[1, 2]` and column `[9, 4]` have mismatched corner
values, so construction fails. -/
theorem fromRowCol_rejects_invalid_witness :
    fromRowCol ([1, 2] : List Int) [9, 4] = none :=
  fromRowCol_rejects_invalid Int [1, 2] [9, 4] (Or.inr (Or.inr (by decide)))

/-- C5 counterexample: the preserve-check `size1 + size2 == size1_ + size2_`
is unsigned machine arithmetic, so on a 1×1 matrix (diagonal sum 2) the call
`resize (2^64 - 1, 3, true)` succeeds — the argument sum wraps to 2 — even
though `(2^64 - 1) + 3 ≠ 1 + 1`, contradicting the claim that every
sum-changing preserve-resize fails. -/
theorem resize_preserve_wrap_cex :
    (2 ^ 64 - 1) + 3 ≠ 1 + 1 ∧
    resizeM 64 (mkDims 64 1 1 (0 : Int)) (2 ^ 64 - 1) 3 true 0 =
      some (mkFromData (2 ^ 64 - 1) 3 [0]) := by decide

/-- C5 (amended): `resize (s1, s2, preserve = true)` fails — returning no
matrix and leaving the original untouched — exactly when the argument sum
differs from the stored sum modulo the word size `2^w`; when the sums agree
modulo `2^w` it succeeds, installs the new dimensions and keeps the stored
diagonal values; in particular, when both sums are below `2^w` (every matrix
that fits memory and non-wrapping arguments) it fails exactly when
`s1 + s2 ≠ rows + cols`. -/
theorem resize_preserve_modular (T : Type) (w : Nat) (m : ToeplitzMatrix T)
    (s1 s2 : Nat) (z : T) :
    ((s1 + s2) % 2 ^ w ≠ (m.size1 + m.size2) % 2 ^ w →
      resizeM w m s1 s2 true z = none) ∧
    ((s1 + s2) % 2 ^ w = (m.size1 + m.size2) % 2 ^ w →
      resizeM w m s1 s2 true z = some ⟨s1, s2, m.data⟩) ∧
    (s1 + s2 < 2 ^ w → m.size1 + m.size2 < 2 ^ w →
      (resizeM w m s1 s2 true z = none ↔ s1 + s2 ≠ m.size1 + m.size2)) := by
  refine ⟨?_, ?_, ?_⟩
  · intro h
    rw [resizeM_true_eq, if_neg h]
  · intro h
    rw [resizeM_true_eq, if_pos h]
  · intro ha hb
    rw [resizeM_true_eq, Nat.mod_eq_of_lt ha, Nat.mod_eq_of_lt hb]
    by_cases h : s1 + s2 = m.size1 + m.size2
    · rw [if_pos h]
      simp [h]
    · rw [if_neg h]
      simp [h]

/-- Witness for C5 (amended): growing a 2×2 matrix to 3×1 keeps the stored
diagonals. -/
theorem resize_preserve_modular_witness :
    resizeM 64 (mkDims 64 2 2 (0 : Int)) 3 1 true 0 =
      some ⟨3, 1, (mkDims 64 2 2 (0 : Int)).data⟩ :=
  (resize_preserve_modular Int 64 (mkDims 64 2 2 (0 : Int)) 3 1 0).2.1 (by decide)

/-- C6 counterexample: the dimensions-plus-data constructor stores the given
array unchecked — a 2×2 matrix built over a 7-element array violates
`diagonals.length = rows + cols - 1`, so not every constructor establishes
the invariant. -/
theorem data_ctor_breaks_invariant_cex :
    (mkFromData 2 2 ([0, 0, 0, 0, 0, 0, 0] : List Int)).size1 = 2 ∧
    (mkFromData 2 2 ([0, 0, 0, 0, 0, 0, 0] : List Int)).size2 = 2 ∧
    (mkFromData 2 2 ([0, 0, 0, 0, 0, 0, 0] : List Int)).data.length ≠ 2 + 2 - 1 := by
  decide

/-- C6 (amended): the default constructor yields the empty zero-sized
matrix; the dimensions-only constructor, and `resize` with
`preserve = false`, establish `diagonals.length = rows + cols - 1` whenever
`rows > 0`, `cols > 0` and the sum fits the word; the row/column-seeded
constructor establishes it on every success; the dimensions-plus-data
constructor stores the supplied array unchecked and so establishes the
invariant exactly when that array already has that length; `resize` with
`preserve = true`, when it succeeds with an argument sum exactly equal to
the stored sum, preserves the invariant on a matrix that already satisfies
it — but does not establish it on one that does not (the final conjunct:
preserve-resizing the unchecked 2×2-over-7-slots matrix to 3×1 succeeds and
carries the ill-sized store along); element insertion, `clear`, assignment
and `swap` preserve the store length. -/
theorem diagonal_count_invariant (T : Type) [DecidableEq T] (w s1 s2 i j : Nat)
    (z v : T) (m m2 b : ToeplitzMatrix T) (row col d : List T) :
    ((mkEmpty T).size1 = 0 ∧ (mkEmpty T).size2 = 0 ∧ (mkEmpty T).data = []) ∧
    (0 < s1 → 0 < s2 → s1 + s2 ≤ 2 ^ w →
      (mkDims w s1 s2 z).data.length =
        (mkDims w s1 s2 z).size1 + (mkDims w s1 s2 z).size2 - 1) ∧
    ((mkFromData s1 s2 d).data.length =
        (mkFromData s1 s2 d).size1 + (mkFromData s1 s2 d).size2 - 1 ↔
      d.length = s1 + s2 - 1) ∧
    (fromRowCol row col = some m2 →
      m2.data.length = m2.size1 + m2.size2 - 1) ∧
    (resizeM w m s1 s2 true z = some m2 → s1 + s2 = m.size1 + m.size2 →
      m.data.length = m.size1 + m.size2 - 1 →
      m2.data.length = m2.size1 + m2.size2 - 1) ∧
    (0 < s1 → 0 < s2 → s1 + s2 ≤ 2 ^ w → resizeM w m s1 s2 false z = some m2 →
      m2.data.length = m2.size1 + m2.size2 - 1) ∧
    (insert_element m i j v = some m2 →
      m2.size1 = m.size1 ∧ m2.size2 = m.size2 ∧ m2.data.length = m.data.length) ∧
    ((clearAll m z).size1 = m.size1 ∧ (clearAll m z).size2 = m.size2 ∧
      (clearAll m z).data.length = m.data.length) ∧
    ((assign m b).size1 = b.size1 ∧ (assign m b).size2 = b.size2 ∧
      (assign m b).data.length = b.data.length) ∧
    ((swapM m b).1 = assign m b ∧ (swapM m b).2 = assign b m) ∧
    (resizeM 64 (mkFromData 2 2 ([0, 0, 0, 0, 0, 0, 0] : List Int)) 3 1 true 0 =
        some (mkFromData 3 1 [0, 0, 0, 0, 0, 0, 0]) ∧
      (mkFromData 3 1 ([0, 0, 0, 0, 0, 0, 0] : List Int)).data.length ≠
        (mkFromData 3 1 ([0, 0, 0, 0, 0, 0, 0] : List Int)).size1 +
          (mkFromData 3 1 ([0, 0, 0, 0, 0, 0, 0] : List Int)).size2 - 1) := by
  refine ⟨⟨rfl, rfl, rfl⟩, ?_, Iff.rfl, ?_, ?_, ?_, ?_, ?_, ⟨rfl, rfl, rfl⟩,
    ⟨rfl, rfl⟩, by decide⟩
  · intro hs1 hs2 hle
    simp only [mkDims, List.length_replicate]
    exact dataLen_eq_of_le w s1 s2 (by omega) hle
  · intro h
    unfold fromRowCol at h
    split at h
    case isTrue hcond =>
      obtain ⟨hr, hc, _⟩ := hcond
      cases h
      simp only [List.length_append, List.length_reverse, List.length_drop]
      omega
    case isFalse => exact absurd h (by simp)
  · intro h hsum hinv
    rw [resizeM_true_eq] at h
    split at h
    case isTrue =>
      cases h
      simpa using by omega
    case isFalse => exact absurd h (by simp)
  · intro hs1 hs2 hle h
    unfold resizeM at h
    simp only [Bool.false_eq_true, if_false, Option.some.injEq] at h
    subst h
    simp only [List.length_replicate]
    exact dataLen_eq_of_le w s1 s2 (by omega) hle
  · intro h
    unfold insert_element at h
    split at h
    case isFalse => exact absurd h (by simp)
    case isTrue =>
      split at h
      case isFalse => exact absurd h (by simp)
      case isTrue =>
        cases h
        exact ⟨rfl, rfl, List.length_set m.data _ v⟩
  · exact ⟨rfl, rfl, (List.length_map m.data _)⟩

/-- Witness for C6 (amended): the 2×3 dimensions-only constructor at word
width 64 allocates 4 diagonal slots. -/
theorem diagonal_count_invariant_witness :
    (mkDims 64 2 3 (0 : Int)).data.length =
      (mkDims 64 2 3 (0 : Int)).size1 + (mkDims 64 2 3 (0 : Int)).size2 - 1 :=
  (diagonal_count_invariant Int 64 2 3 0 0 (0 : Int) (0 : Int) (mkEmpty Int)
      (mkEmpty Int) (mkEmpty Int) [] [] []).2.1
    (by decide) (by decide) (by decide)

/-- C7: the copy-assignment `operator =` replaces the target's `size1_`,
`size2_` and backing store with the source's, so afterwards every dimension
query and element read agrees with the source (the backing store is a value,
deep-copied, not shared). This theorem covers the assignment operator; the
copy constructor itself cannot be instantiated, see the C7 result entry. -/
theorem assign_copies_state (T : Type) (a b : ToeplitzMatrix T) :
    (assign a b).size1 = b.size1 ∧ (assign a b).size2 = b.size2 ∧
    (assign a b).data = b.data ∧
    ∀ i j, readElem (assign a b) i j = readElem b i j :=
  ⟨rfl, rfl, rfl, fun _ _ => rfl⟩

/-- C8: `swap (a, b)` exchanges the full observable state — afterwards the
first matrix carries `b`'s former dimensions and element values and the
second carries `a`'s — and swapping a matrix with itself leaves it
unchanged. -/
theorem swap_exchanges_state (T : Type) (a b : ToeplitzMatrix T) :
    (swapM a b).1.size1 = b.size1 ∧ (swapM a b).1.size2 = b.size2 ∧
    (∀ i j, readElem (swapM a b).1 i j = readElem b i j) ∧
    (swapM a b).2.size1 = a.size1 ∧ (swapM a b).2.size2 = a.size2 ∧
    (∀ i j, readElem (swapM a b).2 i j = readElem a i j) ∧
    swapM a a = (a, a) :=
  ⟨rfl, rfl, fun _ _ => rfl, rfl, rfl, fun _ _ => rfl, rfl⟩

/-- C9: `begin1`/`end1` delimit an axis-1 cursor sequence of exactly `rows`
positions advancing `it1_` with `it2_` fixed at 0; dereferencing any cursor
at `(i, j)` performs `get(i, j)`; from an axis-1 cursor at row `i`, its
`begin ()`/`end ()` pair spans the orthogonal axis `j ∈ [0, cols)` at that
fixed `i`; and symmetrically for `begin2`/`end2` and its row sub-cursors. -/
theorem iterator_protocol (T : Type) (m : ToeplitzMatrix T) :
    ((begin1 m).it1 = 0 ∧ (begin1 m).it2 = 0 ∧
      (end1 m).it1 = m.size1 ∧ (end1 m).it2 = 0) ∧
    (∀ n, ((begin1 m).advance n).mat = m ∧ ((begin1 m).advance n).it1 = n ∧
      ((begin1 m).advance n).it2 = 0 ∧
      ((begin1 m).advance n = end1 m ↔ n = m.size1)) ∧
    (∀ i j, (const_iterator1.mk m i j).deref = readElem m i j ∧
      (const_iterator2.mk m i j).deref = readElem m i j) ∧
    (∀ i j, ((const_iterator1.mk m i j).subBegin).it1 = i ∧
      ((const_iterator1.mk m i j).subBegin).it2 = 0 ∧
      ((const_iterator1.mk m i j).subEnd).it1 = i ∧
      ((const_iterator1.mk m i j).subEnd).it2 = m.size2 ∧
      (∀ k, ((const_iterator1.mk m i j).subBegin.advance k).it1 = i ∧
        ((const_iterator1.mk m i j).subBegin.advance k).it2 = k ∧
        ((const_iterator1.mk m i j).subBegin.advance k =
            (const_iterator1.mk m i j).subEnd ↔ k = m.size2))) ∧
    ((begin2 m).it1 = 0 ∧ (begin2 m).it2 = 0 ∧
      (end2 m).it1 = 0 ∧ (end2 m).it2 = m.size2) ∧
    (∀ n, ((begin2 m).advance n).mat = m ∧ ((begin2 m).advance n).it2 = n ∧
      ((begin2 m).advance n).it1 = 0 ∧
      ((begin2 m).advance n = end2 m ↔ n = m.size2)) ∧
    (∀ i j, ((const_iterator2.mk m i j).subBegin).it2 = j ∧
      ((const_iterator2.mk m i j).subBegin).it1 = 0 ∧
      ((const_iterator2.mk m i j).subEnd).it2 = j ∧
      ((const_iterator2.mk m i j).subEnd).it1 = m.size1 ∧
      (∀ k, ((const_iterator2.mk m i j).subBegin.advance k).it2 = j ∧
        ((const_iterator2.mk m i j).subBegin.advance k).it1 = k ∧
        ((const_iterator2.mk m i j).subBegin.advance k =
            (const_iterator2.mk m i j).subEnd ↔ k = m.size1))) := by
  refine ⟨⟨rfl, rfl, rfl, rfl⟩, fun n => ⟨rfl, by simp [begin1, const_iterator1.advance],
      rfl, ?_⟩, fun i j => ⟨rfl, rfl⟩,
    fun i j => ⟨rfl, rfl, rfl, rfl, fun k => ⟨rfl,
      by simp [const_iterator1.subBegin, const_iterator2.advance], ?_⟩⟩,
    ⟨rfl, rfl, rfl, rfl⟩, fun n => ⟨rfl, by simp [begin2, const_iterator2.advance],
      rfl, ?_⟩,
    fun i j => ⟨rfl, rfl, rfl, rfl, fun k => ⟨rfl,
      by simp [const_iterator2.subBegin, const_iterator1.advance], ?_⟩⟩⟩
  · simp [begin1, end1, const_iterator1.advance]
  · simp [const_iterator1.subBegin, const_iterator1.subEnd, const_iterator2.advance]
  · simp [begin2, end2, const_iterator2.advance]
  · simp [const_iterator2.subBegin, const_iterator2.subEnd, const_iterator1.advance]

/-- C10 counterexample: the dimensions-only constructor at `rows = 1`,
`cols = 0` computes an unsigned store length `1 + 0 - 1 = 0`, yielding an
empty backing store from a non-default constructor — contradicting the
claim that only the default constructor yields an empty store. -/
theorem dims_ctor_empty_store_cex :
    (mkDims 64 1 0 (0 : Int)).data = [] ∧
    mkDims 64 1 0 (0 : Int) ≠ mkEmpty Int := by decide

/-- C10 (amended): the dimensions-only constructor and non-preserving
`resize` compute the store length as `rows + cols - 1` in unsigned word
arithmetic, `(rows + cols + (2^w - 1)) mod 2^w`; at `rows = cols = 0` this
wraps to the maximum size value `2^w - 1` instead of an empty store; the
resulting store is empty exactly when `rows + cols ≡ 1 (mod 2^w)` (e.g.
`(1, 0)` or `(0, 1)`), and the default constructor's store is empty. -/
theorem storeLen_unsigned_wrap (T : Type) (w s1 s2 : Nat) (z : T)
    (m : ToeplitzMatrix T) (hw : 0 < w) :
    ((mkDims w s1 s2 z).data.length = (s1 + s2 + (2 ^ w - 1)) % 2 ^ w) ∧
    (s1 = 0 → s2 = 0 → (mkDims w s1 s2 z).data.length = 2 ^ w - 1) ∧
    ((mkDims w s1 s2 z).data.length = 0 ↔ (s1 + s2) % 2 ^ w = 1) ∧
    (∀ m2, resizeM w m s1 s2 false z = some m2 →
      m2.data.length = (s1 + s2 + (2 ^ w - 1)) % 2 ^ w ∧
        m2.size1 = s1 ∧ m2.size2 = s2) ∧
    (mkEmpty T).data = [] := by
  have hpow : 0 < 2 ^ w := Nat.two_pow_pos w
  have hlen : (mkDims w s1 s2 z).data.length = (s1 + s2 + (2 ^ w - 1)) % 2 ^ w := by
    simp [mkDims, dataLen, wordSub1]
  refine ⟨hlen, ?_, ?_, ?_, rfl⟩
  · intro h1 h2
    subst h1; subst h2
    rw [hlen]
    simp only [Nat.zero_add]
    exact Nat.mod_eq_of_lt (by omega)
  · rw [hlen]
    exact wordSub1_eq_zero_iff w (s1 + s2) hw
  · intro m2 h
    unfold resizeM at h
    simp only [Bool.false_eq_true, if_false, Option.some.injEq] at h
    subst h
    exact ⟨by simp [dataLen, wordSub1], rfl, rfl⟩

/-- Witness for C10 (amended): at word width 64, the `(0, 0)`
dimensions-only construction allocates `2^64 - 1` slots. -/
theorem storeLen_unsigned_wrap_witness :
    (mkDims 64 0 0 (0 : Int)).data.length = 2 ^ 64 - 1 :=
  (storeLen_unsigned_wrap Int 64 0 0 (0 : Int) (mkEmpty Int) (by decide)).2.1
    rfl rfl

end UblasToeplitz
